import Mathlib

/-!
Shallow embedding of the Spy Cat Agency backend (src/backend/main.py,
src/backend/models.py) and proofs about its mission/target completion
workflow.

Modelling conventions:
* The persisted database is a triple of lists (cats, missions, targets);
  row lookup by primary key is `List.find?` on the id, mirroring
  `db.query(...).filter(Model.id == x).first()`.
* Updating a fetched ORM row followed by `db.commit()` is modelled by
  replacing the first list element with the matching id.
* An operation is a function from the pre-commit database to
  `Except ApiError DB`; raising `HTTPException` before any mutation is
  `Except.error`, so an error result leaves the store untouched, exactly
  as an aborted transaction does.
* `create_mission` performs two separate `db.commit()` calls in the
  source (mission first, then its targets), so its embedding returns the
  pair of both committed states.
* Ids are `Nat` (SQLite integer primary keys, assigned as max+1).
  Salary is modelled as `Int`: the source stores a Python float, and
  every fact proved here about salary involves only integral values,
  on which float comparison and assignment agree exactly with `Int`.
-/

structure SpyCat where
  id : Nat
  name : String
  years_of_experience : Nat
  breed : String
  salary : Int
  mission_id : Option Nat
deriving Repr, DecidableEq

structure Mission where
  id : Nat
  is_completed : Bool
  cat_id : Option Nat
deriving Repr, DecidableEq

structure Target where
  id : Nat
  name : String
  country : String
  notes : String
  is_completed : Bool
  mission_id : Nat
deriving Repr, DecidableEq

structure DB where
  cats : List SpyCat
  missions : List Mission
  targets : List Target
deriving Repr, DecidableEq

/-- Errors raised by the endpoints via `HTTPException`, plus
`missionMissing` for the `AttributeError` that `db_target.mission.is_completed`
raises when the target's mission relationship does not resolve. -/
inductive ApiError where
  | catNotFound
  | invalidTargetCount
  | targetNotFound
  | missionCompleted
  | notesLocked
  | missionMissing
deriving Repr, DecidableEq

/-- Request body of `PUT /targets/..`, the `TargetUpdate` pydantic model:
both fields optional, defaulting to `None`. -/
structure TargetUpdate where
  notes : Option String
  is_completed : Option Bool
deriving Repr, DecidableEq

/-- Request body element for a target inside `POST /missions/`. -/
structure TargetCreate where
  name : String
  country : String
deriving Repr, DecidableEq

/-- Request body of `POST /missions/`, the `MissionCreate` pydantic model. -/
structure MissionCreate where
  cat_id : Option Nat
  targets : List TargetCreate
deriving Repr, DecidableEq

def findCat (db : DB) (cid : Nat) : Option SpyCat :=
  db.cats.find? (fun c => c.id == cid)

def findMission (db : DB) (mid : Nat) : Option Mission :=
  db.missions.find? (fun m => m.id == mid)

def findTarget (db : DB) (tid : Nat) : Option Target :=
  db.targets.find? (fun t => t.id == tid)

/-- The relationship collection `mission.targets`: all target rows whose
foreign key points at the mission. -/
def missionTargets (db : DB) (mid : Nat) : List Target :=
  db.targets.filter (fun t => t.mission_id == mid)

/-- Embeds `all(t.is_completed for t in mission.targets)`. -/
def allDone (db : DB) (mid : Nat) : Bool :=
  (missionTargets db mid).all (fun t => t.is_completed)

/-- Mutating a fetched ORM target then committing: the first row with the
given id (the one `.first()` returned) is replaced. -/
def replaceTargetFirst : List Target → Nat → Target → List Target
  | [], _, _ => []
  | x :: xs, tid, t => if x.id == tid then t :: xs else x :: replaceTargetFirst xs tid t

def replaceMissionFirst : List Mission → Nat → Mission → List Mission
  | [], _, _ => []
  | x :: xs, mid, m => if x.id == mid then m :: xs else x :: replaceMissionFirst xs mid m

def replaceCatFirst : List SpyCat → Nat → SpyCat → List SpyCat
  | [], _, _ => []
  | x :: xs, cid, c => if x.id == cid then c :: xs else x :: replaceCatFirst xs cid c

/-- Embeds `PUT /targets/.. — update_target` (src/backend/main.py lines 201-233),
translated clause by clause:
404 if the target id does not resolve; `AttributeError` (modelled as
`missionMissing`) if `db_target.mission` is absent; 400 if the owning
mission is completed; 400 if the target is completed and notes are
supplied; then apply the notes update if present, apply the
`is_completed` update if present (whatever boolean was sent), and when
an `is_completed` update was applied recompute `all(t.is_completed ...)`
over the mission's targets and set `mission.is_completed = True` when
they are all completed. One commit at the end. -/
def update_target (db : DB) (tid : Nat) (u : TargetUpdate) : Except ApiError DB :=
  match findTarget db tid with
  | none => .error .targetNotFound
  | some t =>
    match findMission db t.mission_id with
    | none => .error .missionMissing
    | some m =>
      if m.is_completed then .error .missionCompleted
      else if t.is_completed && u.notes.isSome then .error .notesLocked
      else
        let t1 : Target := { t with notes := u.notes.getD t.notes }
        match u.is_completed with
        | none => .ok { db with targets := replaceTargetFirst db.targets tid t1 }
        | some b =>
          let t2 : Target := { t1 with is_completed := b }
          let db1 : DB := { db with targets := replaceTargetFirst db.targets tid t2 }
          if allDone db1 m.id then
            .ok { db1 with
                  missions := replaceMissionFirst db1.missions m.id
                    { m with is_completed := true } }
          else .ok db1

/-- Python truthiness of the optional cat id in `if mission.cat_id:`
(src/backend/main.py line 176): `None` and `0` are falsy, every other
integer is truthy. -/
def catIdTruthy : Option Nat → Bool
  | none => false
  | some c => c != 0

def maxId : List Nat → Nat
  | [] => 0
  | x :: xs => max x (maxId xs)

/-- Autoincrement primary key for a fresh mission row. -/
def nextMissionId (db : DB) : Nat :=
  maxId (db.missions.map (fun m => m.id)) + 1

/-- Autoincrement primary key for the first fresh target row. -/
def nextTargetId (db : DB) : Nat :=
  maxId (db.targets.map (fun t => t.id)) + 1

/-- The target rows inserted by `create_mission`: sequential ids, notes
default `""`, `is_completed` default `False`, foreign key to the new
mission. -/
def mkTargets : Nat → Nat → List TargetCreate → List Target
  | _, _, [] => []
  | nid, mid, tc :: rest =>
    ⟨nid, tc.name, tc.country, "", false, mid⟩ :: mkTargets (nid + 1) mid rest

/-- Embeds `POST /missions/ — create_mission` (src/backend/main.py lines 166-199):
400 if the target count is outside 1..3; 404 if the cat id is truthy but
unresolved; otherwise the mission row is committed first (`db.commit()`
at line 186) and the target rows are committed second (line 197).  The
result carries both committed states `(after first commit, after second
commit)`. -/
def create_mission (db : DB) (req : MissionCreate) : Except ApiError (DB × DB) :=
  if req.targets.length < 1 || req.targets.length > 3 then
    .error .invalidTargetCount
  else if catIdTruthy req.cat_id && (findCat db (req.cat_id.getD 0)).isNone then
    .error .catNotFound
  else
    let mid := nextMissionId db
    let dbMid : DB := { db with missions := db.missions ++ [⟨mid, false, req.cat_id⟩] }
    let ts := mkTargets (nextTargetId dbMid) mid req.targets
    let dbFin : DB := { dbMid with targets := dbMid.targets ++ ts }
    .ok (dbMid, dbFin)

/-- Embeds `PUT /cats/.. — update_cat_salary` (src/backend/main.py lines 138-146):
404 if the cat id does not resolve, otherwise the submitted salary is
assigned and committed.  The source performs no check at all on the
value (the `salary: float` parameter carries no constraint). -/
def update_cat_salary (db : DB) (cid : Nat) (salary : Int) : Except ApiError DB :=
  match findCat db cid with
  | none => .error .catNotFound
  | some c => .ok { db with cats := replaceCatFirst db.cats cid { c with salary := salary } }

/-- A JSON value as decoded by `response.json()`. -/
inductive PyJson where
  | null
  | num (n : Int)
  | str (s : String)
  | arr (xs : List PyJson)
  | obj (fields : List (String × PyJson))

/-- Outcome of running an endpoint body in Python: normal return, a
deliberately raised `HTTPException`, or an exception that no handler
catches (FastAPI turns the latter into an undistinguished 500). -/
inductive PyOutcome where
  | ok
  | httpError (status : Nat) (detail : String)
  | uncaught (msg : String)
deriving Repr, DecidableEq

/-- Python iteration `for b in response.json()`: lists yield elements,
dicts yield their keys, strings yield their characters, anything else
raises `TypeError`. -/
def pyIter : PyJson → Except String (List PyJson)
  | .arr xs => .ok xs
  | .obj fields => .ok (fields.map (fun f => PyJson.str f.1))
  | .str s => .ok (s.toList.map (fun c => PyJson.str (String.singleton c)))
  | .num _ => .error "TypeError: int object is not iterable"
  | .null => .error "TypeError: NoneType object is not iterable"

/-- One comprehension step `b[\x22name\x22].lower()`: indexing a non-dict
raises `TypeError`, a missing key raises `KeyError`, `.lower()` on a
non-string raises `AttributeError`. -/
def getNameLower : PyJson → Except String String
  | .obj fields =>
    match fields.find? (fun f => f.1 == "name") with
    | some f =>
      match f.2 with
      | .str s => .ok s.toLower
      | _ => .error "AttributeError: object has no attribute lower"
    | none => .error "KeyError: name"
  | _ => .error "TypeError: indices must be str"

/-- The whole list comprehension, stopping at the first failing item. -/
def getNamesLower : List PyJson → Except String (List String)
  | [] => .ok []
  | x :: xs =>
    match getNameLower x with
    | .error e => .error e
    | .ok s =>
      match getNamesLower xs with
      | .error e => .error e
      | .ok ss => .ok (s :: ss)

/-- Embeds `validate_breed` (src/backend/main.py lines 108-115).  The argument
is the outcome of `requests.get(...)` followed by `response.json()`:
`.error` when the transport call or the JSON decode raised.  The source
wraps none of this in try/except, so any such exception — and any
exception raised while extracting names — propagates uncaught.  When a
name list is obtained, a breed outside it raises `HTTPException 400`
with a sample of valid names. -/
def validate_breed (fetched : Except String PyJson) (breed : String) : PyOutcome :=
  match fetched with
  | .error e => .uncaught e
  | .ok body =>
    match pyIter body with
    | .error e => .uncaught e
    | .ok items =>
      match getNamesLower items with
      | .error e => .uncaught e
      | .ok breeds =>
        if breeds.contains breed.toLower then .ok
        else
          .httpError 400
            ("Invalid breed. Valid breeds: " ++ String.intercalate ", " (breeds.take 5) ++ "...")

/-- Primary keys are unique in each relation. -/
def WF (db : DB) : Prop :=
  (db.missions.map (fun m => m.id)).Nodup ∧ (db.targets.map (fun t => t.id)).Nodup

/-- The completion invariant of the spec: a mission is completed exactly
when all of its targets are. -/
def missionInv (db : DB) : Prop :=
  ∀ m ∈ db.missions, m.is_completed = allDone db m.id

instance : ∀ db : DB, Decidable (WF db) := by
  intro db
  unfold WF
  infer_instance

instance : ∀ db : DB, Decidable (missionInv db) := by
  intro db
  unfold missionInv
  infer_instance

/-! ### Basic lookup facts -/

lemma findTarget_id {db : DB} {tid : Nat} {t : Target}
    (h : findTarget db tid = some t) : t.id = tid := by
  unfold findTarget at h
  have h2 := List.find?_some h
  simpa using h2

lemma findTarget_mem {db : DB} {tid : Nat} {t : Target}
    (h : findTarget db tid = some t) : t ∈ db.targets :=
  List.mem_of_find?_eq_some h

lemma findMission_id {db : DB} {mid : Nat} {m : Mission}
    (h : findMission db mid = some m) : m.id = mid := by
  unfold findMission at h
  have h2 := List.find?_some h
  simpa using h2

lemma findMission_mem {db : DB} {mid : Nat} {m : Mission}
    (h : findMission db mid = some m) : m ∈ db.missions :=
  List.mem_of_find?_eq_some h

/-! ### C4: updates on targets of a completed mission are rejected -/

/-- C4: when the owning mission is already completed, `update_target`
fails with `MissionAlreadyCompleted` whatever the request body carries
(notes, is_completed, or both).  The error is raised before any
mutation, so — `Except.error` carrying no state — no field of the
target, its siblings, or the mission changes. -/
theorem update_target_completed_mission_rejected
    (db : DB) (tid : Nat) (u : TargetUpdate) (t : Target) (m : Mission)
    (ht : findTarget db tid = some t)
    (hm : findMission db t.mission_id = some m)
    (hmc : m.is_completed = true) :
    update_target db tid u = .error .missionCompleted := by
  unfold update_target
  simp only [ht, hm, hmc, if_true]

/-- C4 witness: a concrete completed mission rejects a full update. -/
theorem update_target_completed_mission_rejected_witness :
    update_target ⟨[], [⟨1, true, none⟩], [⟨1, "a", "b", "", false, 1⟩]⟩ 1
        ⟨some "x", some true⟩ = .error .missionCompleted :=
  update_target_completed_mission_rejected _ 1 _ ⟨1, "a", "b", "", false, 1⟩ ⟨1, true, none⟩
    rfl rfl rfl

/-! ### C10: a notes-only update frames everything but the target's notes -/

/-- C10: a successful `update_target` whose body omits `is_completed`
leaves the cats, the missions (in particular every mission's
`is_completed` flag), and every target other than the addressed one
untouched; the addressed target changes at most its `notes` field. -/
theorem update_target_notes_only_frame
    (db : DB) (tid : Nat) (u : TargetUpdate) (db' : DB)
    (hu : u.is_completed = none)
    (h : update_target db tid u = .ok db') :
    db'.missions = db.missions ∧ db'.cats = db.cats ∧
    ∃ t, findTarget db tid = some t ∧
      db'.targets = replaceTargetFirst db.targets tid { t with notes := u.notes.getD t.notes } := by
  unfold update_target at h
  split at h
  · exact Except.noConfusion h
  case h_2 t hft =>
    split at h
    · exact Except.noConfusion h
    case h_2 m hfm =>
      split at h
      · exact Except.noConfusion h
      · split at h
        · exact Except.noConfusion h
        · split at h
          · injection h with h2
            subst h2
            exact ⟨rfl, rfl, t, hft, rfl⟩
          · rename_i b hsome
            rw [hu] at hsome
            exact Option.noConfusion hsome

/-- C10 witness: a concrete notes-only update leaves the mission list
unchanged. -/
theorem update_target_notes_only_frame_witness :
    (⟨[], [⟨1, false, none⟩],
        [⟨1, "a", "b", "hi", false, 1⟩, ⟨2, "c", "d", "", false, 1⟩]⟩ : DB).missions =
      (⟨[], [⟨1, false, none⟩],
          [⟨1, "a", "b", "", false, 1⟩, ⟨2, "c", "d", "", false, 1⟩]⟩ : DB).missions :=
  (update_target_notes_only_frame
    ⟨[], [⟨1, false, none⟩], [⟨1, "a", "b", "", false, 1⟩, ⟨2, "c", "d", "", false, 1⟩]⟩
    1 ⟨some "hi", none⟩ _ rfl rfl).1

/-! ### C6: update_cat_salary performs no positivity check -/

/-- C6 evaluation: `update_cat_salary` is documented (models.py: salary
"must be positive") and spec'd to reject a non-positive salary before
persistence, but the endpoint's `salary: float` parameter carries no
constraint and the handler assigns it unconditionally: updating the
stored salary 1000 to -5 succeeds and persists -5. -/
theorem update_cat_salary_accepts_nonpositive :
    update_cat_salary ⟨[⟨1, "Tom", 3, "persian", 1000, none⟩], [], []⟩ 1 (-5) =
      .ok ⟨[⟨1, "Tom", 3, "persian", -5, none⟩], [], []⟩ := rfl

/-! ### C8: target count boundaries for create_mission -/

/-- C8: `create_mission` succeeds when the target list has length 1 or 3
(provided the optional cat reference resolves or is absent, the only
other failure source), and fails with `InvalidTargetCount` when the
length is 0 or at least 4. -/
theorem create_mission_target_count (db : DB) (req : MissionCreate) :
    ((req.targets.length = 1 ∨ req.targets.length = 3) →
      (catIdTruthy req.cat_id = false ∨
        ∃ c, req.cat_id = some c ∧ (findCat db c).isSome = true) →
      (create_mission db req).isOk = true) ∧
    ((req.targets.length = 0 ∨ 4 ≤ req.targets.length) →
      create_mission db req = .error .invalidTargetCount) := by
  constructor
  · intro hlen hcat
    unfold create_mission
    have hguard : (req.targets.length < 1 || req.targets.length > 3) = false := by
      rcases hlen with h | h <;> simp [h]
    rw [hguard]
    rcases hcat with h | ⟨c, hc, hfc⟩
    · simp [h, Except.isOk, Except.toBool]
    · rcases Option.isSome_iff_exists.mp hfc with ⟨cat, hcat2⟩
      simp [hc, hcat2, Except.isOk, Except.toBool]
  · intro hlen
    unfold create_mission
    have hguard : (req.targets.length < 1 || req.targets.length > 3) = true := by
      rcases hlen with h | h
      · simp [h]
      · have h3 : req.targets.length > 3 := by omega
        simp [h3]
    rw [hguard]
    simp

/-- C8 witness: one target succeeds, four targets fail. -/
theorem create_mission_target_count_witness :
    (create_mission ⟨[], [], []⟩ ⟨none, [⟨"a", "b"⟩]⟩).isOk = true ∧
    create_mission ⟨[], [], []⟩
        ⟨none, [⟨"a", "b"⟩, ⟨"a", "b"⟩, ⟨"a", "b"⟩, ⟨"a", "b"⟩]⟩ =
      .error .invalidTargetCount :=
  ⟨(create_mission_target_count ⟨[], [], []⟩ ⟨none, [⟨"a", "b"⟩]⟩).1 (Or.inl rfl) (Or.inl rfl),
   (create_mission_target_count ⟨[], [], []⟩
       ⟨none, [⟨"a", "b"⟩, ⟨"a", "b"⟩, ⟨"a", "b"⟩, ⟨"a", "b"⟩]⟩).2 (Or.inr (by decide))⟩

/-! ### C2: target completion is not monotone in the code -/

/-- C2 counterexample: a mission that is not yet completed holds target 1
with `is_completed = true`; the request `PUT /targets/1` with body
`is_completed = false` succeeds and flips the target back to
`is_completed = false`, contradicting the claim that no UpdateTarget
request can change a target's `is_completed` from true to false. -/
theorem update_target_reverses_completion_cex :
    update_target ⟨[], [⟨1, false, none⟩],
        [⟨1, "a", "b", "", true, 1⟩, ⟨2, "c", "d", "", false, 1⟩]⟩ 1
        ⟨none, some false⟩ =
      .ok ⟨[], [⟨1, false, none⟩],
          [⟨1, "a", "b", "", false, 1⟩, ⟨2, "c", "d", "", false, 1⟩]⟩ := rfl

/-! ### C3: create_mission is not atomic -/

/-- C3 counterexample: creating a mission with one target from the empty
store returns two committed states; the first committed state persists
mission 1 with an empty target collection, so a mission with zero
targets is observably persisted between the two commits. -/
theorem create_mission_partial_commit_cex :
    create_mission ⟨[], [], []⟩ ⟨none, [⟨"a", "b"⟩]⟩ =
      .ok (⟨[], [⟨1, false, none⟩], []⟩,
           ⟨[], [⟨1, false, none⟩], [⟨1, "a", "b", "", false, 1⟩]⟩) ∧
    missionTargets ⟨[], [⟨1, false, none⟩], []⟩ 1 = [] := ⟨rfl, rfl⟩

/-! ### C5: breed lookup failures are not converted to a service error -/

/-- C5 counterexample: when the outbound call to the breed catalog raises
(here a connection error), `validate_breed` has no handler, so the
exception propagates uncaught — an undistinguished 500-class fault —
rather than any distinguishable BreedServiceUnavailable error
(`validate_breed` never constructs such an error: its only deliberate
outcome besides success is the 400 invalid-breed response). -/
theorem validate_breed_transport_cex :
    validate_breed (.error "ConnectionError") "persian" =
      .uncaught "ConnectionError" := rfl

/-! ### C7: a supplied cat id of 0 bypasses the existence check -/

/-- C7 counterexample: the store holds no cats, so the supplied cat id 0
does not resolve, yet `create_mission` succeeds and persists the mission
with `cat_id = 0`: the truthiness test `if mission.cat_id:` treats 0
like an absent id, contradicting the claim that every supplied
unresolvable cat id fails with CatNotFound. -/
theorem create_mission_cat_zero_cex :
    findCat ⟨[], [], []⟩ 0 = none ∧
    create_mission ⟨[], [], []⟩ ⟨some 0, [⟨"a", "b"⟩]⟩ =
      .ok (⟨[], [⟨1, false, some 0⟩], []⟩,
           ⟨[], [⟨1, false, some 0⟩], [⟨1, "a", "b", "", false, 1⟩]⟩) := ⟨rfl, rfl⟩

/-- C7 amended: for a supplied nonzero cat id that does not resolve, and
a target count inside 1..3 (the count is checked first in the source),
`create_mission` fails with `CatNotFound`; the error is raised before
any `db.add`, so no mission and no targets are persisted. -/
theorem create_mission_cat_not_found
    (db : DB) (req : MissionCreate) (c : Nat)
    (hc : req.cat_id = some c) (hc0 : c ≠ 0)
    (hfind : findCat db c = none)
    (hlen1 : 1 ≤ req.targets.length) (hlen3 : req.targets.length ≤ 3) :
    create_mission db req = .error .catNotFound := by
  unfold create_mission
  have hguard : (req.targets.length < 1 || req.targets.length > 3) = false := by
    simp only [Bool.or_eq_false_iff, decide_eq_false_iff_not]
    omega
  rw [hguard]
  have htruthy : catIdTruthy (some c) = true := by
    simp [catIdTruthy, hc0]
  simp [hc, htruthy, hfind]

/-- C7 amended witness: cat id 5 over the empty store, one target. -/
theorem create_mission_cat_not_found_witness :
    create_mission ⟨[], [], []⟩ ⟨some 5, [⟨"a", "b"⟩]⟩ = .error .catNotFound :=
  create_mission_cat_not_found ⟨[], [], []⟩ ⟨some 5, [⟨"a", "b"⟩]⟩ 5 rfl
    (by decide) rfl (by decide) (by decide)

/-! ### C3 amended: the exact two-commit shape of create_mission -/

lemma mkTargets_length : ∀ (nid mid : Nat) (l : List TargetCreate),
    (mkTargets nid mid l).length = l.length
  | _, _, [] => rfl
  | nid, mid, _ :: rest => by
    simp [mkTargets, mkTargets_length (nid + 1) mid rest]

lemma mkTargets_fields : ∀ (nid mid : Nat) (l : List TargetCreate) (t : Target),
    t ∈ mkTargets nid mid l → t.mission_id = mid ∧ t.is_completed = false
  | _, _, [], t, h => by simp [mkTargets] at h
  | nid, mid, _ :: rest, t, h => by
    rcases List.mem_cons.mp h with h | h
    · subst h; exact ⟨rfl, rfl⟩
    · exact mkTargets_fields (nid + 1) mid rest t h

/-- C3 amended: a successful `create_mission` consists of two separate
commits, not one atomic unit.  The first committed state appends only
the mission row (is_completed = false, the requested cat reference) and
leaves the target relation untouched; the second appends the 1-3 target
rows, each pointing at the new mission and not completed.  In
particular, the first committed state is observable with the new
mission owning zero targets. -/
theorem create_mission_commits (db : DB) (req : MissionCreate) (dbMid dbFin : DB)
    (h : create_mission db req = .ok (dbMid, dbFin)) :
    dbMid = { db with missions := db.missions ++ [⟨nextMissionId db, false, req.cat_id⟩] } ∧
    dbFin = { dbMid with
      targets := db.targets ++ mkTargets (nextTargetId db) (nextMissionId db) req.targets } ∧
    1 ≤ req.targets.length ∧ req.targets.length ≤ 3 ∧
    (mkTargets (nextTargetId db) (nextMissionId db) req.targets).length = req.targets.length ∧
    ∀ t ∈ mkTargets (nextTargetId db) (nextMissionId db) req.targets,
      t.mission_id = nextMissionId db ∧ t.is_completed = false := by
  unfold create_mission at h
  split at h
  · exact Except.noConfusion h
  · split at h
    · exact Except.noConfusion h
    · rename_i hguard hcat
      injection h with h2
      injection h2 with ha hb
      subst ha
      subst hb
      simp only [Bool.or_eq_true, decide_eq_true_eq, not_or, not_lt] at hguard
      refine ⟨rfl, rfl, hguard.1, by omega, mkTargets_length _ _ _, ?_⟩
      intro t htmem
      exact mkTargets_fields _ _ _ t htmem

/-- C3 amended witness: two targets over the empty store. -/
theorem create_mission_commits_witness :
    (mkTargets 1 1 [⟨"a", "b"⟩, ⟨"c", "d"⟩]).length =
      ([⟨"a", "b"⟩, ⟨"c", "d"⟩] : List TargetCreate).length :=
  (create_mission_commits ⟨[], [], []⟩ ⟨none, [⟨"a", "b"⟩, ⟨"c", "d"⟩]⟩ _ _ rfl).2.2.2.2.1

/-! ### C2 amended: reversal happens exactly on an explicit false -/

lemma find_replaceTargetFirst : ∀ (ts : List Target) (tid : Nat) (t0 : Target),
    (ts.find? (fun x => x.id == tid)).isSome = true → t0.id = tid →
    (replaceTargetFirst ts tid t0).find? (fun x => x.id == tid) = some t0
  | [], tid, t0, h, _ => by simp [List.find?] at h
  | x :: xs, tid, t0, h, h0 => by
    by_cases hx : (x.id == tid) = true
    · simp only [replaceTargetFirst, if_pos hx]
      exact List.find?_cons_of_pos xs (by simp [h0])
    · simp only [replaceTargetFirst, if_neg hx]
      rw [List.find?_cons_of_neg (p := fun y => y.id == tid) xs hx] at h
      rw [List.find?_cons_of_neg (p := fun y => y.id == tid) (replaceTargetFirst xs tid t0) hx]
      exact find_replaceTargetFirst xs tid t0 h h0

/-- C2 amended: the only way a target's `is_completed` goes from true to
false across a successful `update_target` is that the request explicitly
carried `is_completed = false`, and then only because the owning mission
was not yet completed (a completed mission rejects every update).  The
source applies whatever boolean the body carries, so the false-to-true-only
state machine of the claim does not hold; this is the exact condition
under which it is violated. -/
theorem target_reversal_needs_explicit_false
    (db : DB) (tid : Nat) (u : TargetUpdate) (db' : DB) (t t' : Target)
    (ht : findTarget db tid = some t) (htc : t.is_completed = true)
    (h : update_target db tid u = .ok db')
    (ht' : findTarget db' tid = some t') (htc' : t'.is_completed = false) :
    u.is_completed = some false ∧
    ∃ m, findMission db t.mission_id = some m ∧ m.is_completed = false := by
  have hsome : (db.targets.find? (fun x => x.id == tid)).isSome = true := by
    unfold findTarget at ht
    simp [ht]
  have hid : t.id = tid := findTarget_id ht
  unfold update_target at h
  split at h
  · exact Except.noConfusion h
  case h_2 t2 hft =>
    rw [ht] at hft
    have ht2 := Option.some.inj hft
    subst ht2
    split at h
    · exact Except.noConfusion h
    case h_2 m hfm =>
      split at h
      · exact Except.noConfusion h
      case isFalse hmc =>
        split at h
        · exact Except.noConfusion h
        case isFalse hg =>
          split at h
          case h_1 hnone =>
            injection h with h2
            subst h2
            have hfind := find_replaceTargetFirst db.targets tid
              { t with notes := u.notes.getD t.notes } hsome hid
            simp only [findTarget] at ht'
            rw [hfind] at ht'
            have ht'2 := Option.some.inj ht'
            subst ht'2
            simp only [htc] at htc'
            exact Bool.noConfusion htc'
          case h_2 b hsomeb =>
            have hfind := find_replaceTargetFirst db.targets tid
              { t with notes := u.notes.getD t.notes, is_completed := b } hsome hid
            simp only [] at h
            split at h
            · injection h with h2
              subst h2
              simp only [findTarget] at ht'
              rw [hfind] at ht'
              have ht'2 := Option.some.inj ht'
              subst ht'2
              simp only at htc'
              subst htc'
              exact ⟨hsomeb, m, hfm, by simpa using hmc⟩
            · injection h with h2
              subst h2
              simp only [findTarget] at ht'
              rw [hfind] at ht'
              have ht'2 := Option.some.inj ht'
              subst ht'2
              simp only at htc'
              subst htc'
              exact ⟨hsomeb, m, hfm, by simpa using hmc⟩

/-- C2 amended witness: the concrete reversal carries an explicit
`is_completed = false` and a not-yet-completed mission. -/
theorem target_reversal_needs_explicit_false_witness :
    (⟨none, some false⟩ : TargetUpdate).is_completed = some false ∧
    ∃ m, findMission ⟨[], [⟨1, false, none⟩],
        [⟨1, "a", "b", "", true, 1⟩, ⟨2, "c", "d", "", false, 1⟩]⟩ 1 = some m ∧
      m.is_completed = false :=
  target_reversal_needs_explicit_false
    ⟨[], [⟨1, false, none⟩], [⟨1, "a", "b", "", true, 1⟩, ⟨2, "c", "d", "", false, 1⟩]⟩
    1 ⟨none, some false⟩
    ⟨[], [⟨1, false, none⟩], [⟨1, "a", "b", "", false, 1⟩, ⟨2, "c", "d", "", false, 1⟩]⟩
    ⟨1, "a", "b", "", true, 1⟩ ⟨1, "a", "b", "", false, 1⟩
    rfl rfl rfl rfl rfl

/-! ### C5 amended: failures propagate uncaught, never silently pass -/

/-- C5 amended: `validate_breed` wraps nothing in try/except, so a
transport failure (or JSON decode failure) propagates as the original
uncaught exception — an undistinguished 500-class fault, not a
distinguishable BreedServiceUnavailable; and validation succeeds only
when the collaborator returned a well-formed response whose extracted
lower-cased names contain the submitted breed, so a failure never
silently passes validation. -/
theorem validate_breed_failure_modes (fetched : Except String PyJson) (breed : String) :
    (∀ e, fetched = .error e → validate_breed fetched breed = .uncaught e) ∧
    (validate_breed fetched breed = .ok →
      ∃ body items breeds, fetched = .ok body ∧ pyIter body = .ok items ∧
        getNamesLower items = .ok breeds ∧ breeds.contains breed.toLower = true) := by
  constructor
  · intro e he
    subst he
    rfl
  · intro h
    unfold validate_breed at h
    split at h
    · exact PyOutcome.noConfusion h
    case h_2 body =>
      split at h
      · exact PyOutcome.noConfusion h
      case h_2 items hitems =>
        split at h
        · exact PyOutcome.noConfusion h
        case h_2 breeds hbreeds =>
          split at h
          case isTrue hmem => exact ⟨body, items, breeds, rfl, hitems, hbreeds, hmem⟩
          case isFalse hmem => exact PyOutcome.noConfusion h

/-- C5 amended witness: a concrete transport failure propagates
uncaught. -/
theorem validate_breed_failure_modes_witness :
    validate_breed (.error "timeout") "persian" = .uncaught "timeout" :=
  (validate_breed_failure_modes (.error "timeout") "persian").1 "timeout" rfl

/-! ### C1: the completion invariant is preserved by update_target -/

lemma targets_id_inj {ts : List Target} (h : (ts.map (fun t => t.id)).Nodup)
    {x y : Target} (hx : x ∈ ts) (hy : y ∈ ts) (hid : x.id = y.id) : x = y :=
  List.inj_on_of_nodup_map h hx hy hid

lemma missions_id_inj {ms : List Mission} (h : (ms.map (fun m => m.id)).Nodup)
    {x y : Mission} (hx : x ∈ ms) (hy : y ∈ ms) (hid : x.id = y.id) : x = y :=
  List.inj_on_of_nodup_map h hx hy hid

/-- Replacing a target with one of equal `is_completed` and `mission_id`
changes no mission's all-targets-completed computation. -/
lemma filter_all_replace_same : ∀ (ts : List Target) (tid : Nat) (t0 : Target) (mid : Nat),
    (∀ x ∈ ts, x.id = tid → x.is_completed = t0.is_completed ∧ x.mission_id = t0.mission_id) →
    ((replaceTargetFirst ts tid t0).filter (fun x => x.mission_id == mid)).all
        (fun x => x.is_completed) =
      (ts.filter (fun x => x.mission_id == mid)).all (fun x => x.is_completed)
  | [], _, _, _, _ => rfl
  | a :: as, tid, t0, mid, h => by
    have ih := filter_all_replace_same as tid t0 mid
      (fun x hx => h x (List.mem_cons_of_mem a hx))
    by_cases ha : (a.id == tid) = true
    · obtain ⟨hc, hm⟩ := h a (List.mem_cons_self a as) (by simpa using ha)
      simp only [replaceTargetFirst, if_pos ha, List.filter_cons, hm, hc]
      by_cases hmid : (t0.mission_id == mid) = true
      · simp [hmid, List.all_cons, hc]
      · simp [hmid]
    · simp only [replaceTargetFirst, if_neg ha, List.filter_cons]
      by_cases hmid : (a.mission_id == mid) = true
      · simp [hmid, List.all_cons, ih]
      · simp [hmid, ih]

/-- Replacing a target whose mission differs from `mid` leaves mission
`mid`'s target collection unchanged. -/
lemma filter_replace_other : ∀ (ts : List Target) (tid : Nat) (t0 : Target) (mid : Nat),
    (∀ x ∈ ts, x.id = tid → x.mission_id = t0.mission_id) →
    (t0.mission_id == mid) = false →
    (replaceTargetFirst ts tid t0).filter (fun x => x.mission_id == mid)
      = ts.filter (fun x => x.mission_id == mid)
  | [], _, _, _, _, _ => rfl
  | a :: as, tid, t0, mid, h, h0 => by
    have ih := filter_replace_other as tid t0 mid
      (fun x hx => h x (List.mem_cons_of_mem a hx)) h0
    by_cases ha : (a.id == tid) = true
    · have hm := h a (List.mem_cons_self a as) (by simpa using ha)
      simp only [replaceTargetFirst, if_pos ha, List.filter_cons, hm, h0]
      simp
    · simp only [replaceTargetFirst, if_neg ha, List.filter_cons, ih]

/-- Membership after replacing the mission with id `mid` (under unique
mission ids): an element of the result is either the replacement or an
untouched mission with a different id. -/
lemma mem_replaceMissionFirst : ∀ {ms : List Mission} {mid : Nat} {newM m2 : Mission},
    (ms.map (fun m => m.id)).Nodup →
    m2 ∈ replaceMissionFirst ms mid newM →
    m2 = newM ∨ (m2 ∈ ms ∧ m2.id ≠ mid)
  | [], mid, newM, m2, _, h => by simp [replaceMissionFirst] at h
  | a :: as, mid, newM, m2, hnd, h => by
    rw [List.map_cons, List.nodup_cons] at hnd
    by_cases ha : (a.id == mid) = true
    · simp only [replaceMissionFirst, if_pos ha] at h
      rcases List.mem_cons.mp h with h | h
      · exact Or.inl h
      · refine Or.inr ⟨List.mem_cons_of_mem a h, ?_⟩
        intro hm2
        apply hnd.1
        have hmm : m2.id ∈ as.map (fun m => m.id) := List.mem_map_of_mem _ h
        rw [hm2] at hmm
        rw [show a.id = mid from by simpa using ha]
        exact hmm
    · simp only [replaceMissionFirst, if_neg ha] at h
      rcases List.mem_cons.mp h with h | h
      · subst h
        exact Or.inr ⟨List.mem_cons_self _ _, by simpa using ha⟩
      · rcases mem_replaceMissionFirst hnd.2 h with h | ⟨hmem, hne⟩
        · exact Or.inl h
        · exact Or.inr ⟨List.mem_cons_of_mem a hmem, hne⟩

/-- C1: the invariant "a mission is completed exactly when all of its
targets are completed" holds immediately after any successful
`update_target` commit, for every mission — provided it held before the
request and primary keys are unique, which every reachable store
satisfies. -/
theorem update_target_preserves_missionInv
    (db : DB) (tid : Nat) (u : TargetUpdate) (db2 : DB)
    (hwf : WF db) (hinv : missionInv db)
    (h : update_target db tid u = .ok db2) :
    missionInv db2 := by
  unfold update_target at h
  split at h
  · exact Except.noConfusion h
  case h_2 t hft =>
    have hid : t.id = tid := findTarget_id hft
    have htmem : t ∈ db.targets := findTarget_mem hft
    have hall : ∀ x ∈ db.targets, x.id = tid →
        x.is_completed = t.is_completed ∧ x.mission_id = t.mission_id := by
      intro x hx hxid
      have hxeq : x = t := targets_id_inj hwf.2 hx htmem (by rw [hxid, hid])
      subst hxeq
      exact ⟨rfl, rfl⟩
    split at h
    · exact Except.noConfusion h
    case h_2 m hfm =>
      have hmid : m.id = t.mission_id := findMission_id hfm
      have hmmem : m ∈ db.missions := findMission_mem hfm
      split at h
      · exact Except.noConfusion h
      case isFalse hmc =>
        have hmcf : m.is_completed = false := by simpa using hmc
        split at h
        · exact Except.noConfusion h
        case isFalse hg =>
          split at h
          case h_1 hnone =>
            injection h with h2
            subst h2
            unfold missionInv
            intro m2 hm2
            simp only at hm2
            have hpre := hinv m2 hm2
            unfold allDone missionTargets at hpre ⊢
            simp only
            rw [filter_all_replace_same db.targets tid
              { t with notes := u.notes.getD t.notes } m2.id hall]
            exact hpre
          case h_2 b hsomeb =>
            simp only [] at h
            split at h
            case isTrue hAD =>
              injection h with h2
              subst h2
              unfold missionInv
              intro m2 hm2
              simp only at hm2
              rcases mem_replaceMissionFirst hwf.1 hm2 with heq | ⟨hmem2, hne⟩
              · subst heq
                unfold allDone missionTargets at hAD ⊢
                simp only at hAD ⊢
                exact hAD.symm
              · have hpre := hinv m2 hmem2
                have hbeq : (t.mission_id == m2.id) = false := by
                  rw [beq_eq_false_iff_ne]
                  rw [← hmid]
                  exact fun hc => hne hc.symm
                unfold allDone missionTargets at hpre ⊢
                simp only
                rw [filter_replace_other db.targets tid
                  { t with notes := u.notes.getD t.notes, is_completed := b } m2.id
                  (fun x hx hxid => (hall x hx hxid).2) hbeq]
                exact hpre
            case isFalse hAD =>
              injection h with h2
              subst h2
              unfold missionInv
              intro m2 hm2
              simp only at hm2
              by_cases hm2id : m2.id = m.id
              · have hm2eq : m2 = m := missions_id_inj hwf.1 hm2 hmmem hm2id
                subst hm2eq
                rw [hmcf]
                unfold allDone missionTargets at hAD ⊢
                simp only at hAD ⊢
                exact (Bool.eq_false_iff.mpr hAD).symm
              · have hpre := hinv m2 hm2
                have hbeq : (t.mission_id == m2.id) = false := by
                  rw [beq_eq_false_iff_ne]
                  rw [← hmid]
                  exact fun hc => hm2id hc.symm
                unfold allDone missionTargets at hpre ⊢
                simp only
                rw [filter_replace_other db.targets tid
                  { t with notes := u.notes.getD t.notes, is_completed := b } m2.id
                  (fun x hx hxid => (hall x hx hxid).2) hbeq]
                exact hpre

/-- C1 witness: completing the only target of mission 1 flips the
mission to completed, and the invariant holds in the committed state. -/
theorem update_target_preserves_missionInv_witness :
    missionInv ⟨[], [⟨1, true, none⟩], [⟨1, "a", "b", "", true, 1⟩]⟩ :=
  update_target_preserves_missionInv
    ⟨[], [⟨1, false, none⟩], [⟨1, "a", "b", "", false, 1⟩]⟩ 1 ⟨none, some true⟩
    ⟨[], [⟨1, true, none⟩], [⟨1, "a", "b", "", true, 1⟩]⟩
    (by decide) (by decide) rfl

/-! ### C9: re-completing an already-completed target is a no-op or clean failure -/

/-- Replacing the first id-match with the very row the lookup returned
changes nothing. -/
lemma replaceTargetFirst_self : ∀ (ts : List Target) (tid : Nat) (t : Target),
    ts.find? (fun x => x.id == tid) = some t → replaceTargetFirst ts tid t = ts
  | [], _, _, h => by simp [List.find?] at h
  | a :: as, tid, t, h => by
    by_cases ha : (a.id == tid) = true
    · rw [List.find?_cons_of_pos (p := fun y => y.id == tid) as ha] at h
      have h2 := Option.some.inj h
      subst h2
      simp [replaceTargetFirst, ha]
    · rw [List.find?_cons_of_neg (p := fun y => y.id == tid) as ha] at h
      simp only [replaceTargetFirst, if_neg ha]
      rw [replaceTargetFirst_self as tid t h]

/-- C9: an `update_target` that sets `is_completed = true` on a target
that is already completed either fails cleanly (missing mission,
mission already completed, or notes locked) or returns with the store
bit-for-bit unchanged — in particular the mission's completion
transition and its side effects cannot fire a second time. -/
theorem update_completed_target_idempotent
    (db : DB) (tid : Nat) (u : TargetUpdate) (t : Target)
    (hinv : missionInv db)
    (ht : findTarget db tid = some t) (htc : t.is_completed = true)
    (hu : u.is_completed = some true) :
    (∃ e, update_target db tid u = .error e) ∨ update_target db tid u = .ok db := by
  obtain ⟨tid0, tn, tc0, tno, tcomp, tmi⟩ := t
  simp only at htc
  subst htc
  cases hfm : findMission db tmi with
  | none =>
    left
    refine ⟨.missionMissing, ?_⟩
    unfold update_target
    simp only [ht, hfm]
  | some m =>
    have hmmem : m ∈ db.missions := findMission_mem hfm
    have hmid : m.id = tmi := findMission_id hfm
    by_cases hmc : m.is_completed = true
    · left
      refine ⟨.missionCompleted, ?_⟩
      unfold update_target
      simp only [ht, hfm, hmc, if_true]
    · have hmcf : m.is_completed = false := by simpa using hmc
      cases hn : u.notes with
      | some s =>
        left
        refine ⟨.notesLocked, ?_⟩
        unfold update_target
        simp [ht, hfm, hmcf, hn]
      | none =>
        right
        unfold update_target
        simp only [ht, hfm, hmcf, hn, hu, Option.getD_none, Option.isSome_none,
          Bool.and_false]
        rw [replaceTargetFirst_self db.targets tid ⟨tid0, tn, tc0, tno, true, tmi⟩ ht]
        have hdbeq : ({ db with targets := db.targets } : DB) = db := rfl
        rw [hdbeq]
        have hAD : allDone db m.id = false := by
          rw [← hmcf]
          exact (hinv m hmmem).symm
        simp [hAD]

/-- C9 witness: target 1 is already completed, its sibling is not; the
re-completion request returns the store unchanged. -/
theorem update_completed_target_idempotent_witness :
    (∃ e, update_target ⟨[], [⟨1, false, none⟩],
        [⟨1, "a", "b", "", true, 1⟩, ⟨2, "c", "d", "", false, 1⟩]⟩ 1
        ⟨none, some true⟩ = .error e) ∨
    update_target ⟨[], [⟨1, false, none⟩],
        [⟨1, "a", "b", "", true, 1⟩, ⟨2, "c", "d", "", false, 1⟩]⟩ 1
        ⟨none, some true⟩ =
      .ok ⟨[], [⟨1, false, none⟩],
          [⟨1, "a", "b", "", true, 1⟩, ⟨2, "c", "d", "", false, 1⟩]⟩ :=
  update_completed_target_idempotent
    ⟨[], [⟨1, false, none⟩], [⟨1, "a", "b", "", true, 1⟩, ⟨2, "c", "d", "", false, 1⟩]⟩
    1 ⟨none, some true⟩ ⟨1, "a", "b", "", true, 1⟩
    (by decide) rfl rfl rfl
